import Mathlib

/-!
Verification development for the bonito training/serialization core
(`bonito/nn.py`, `bonito/training.py`).

The Python source is embedded shallowly:

* Python dict documents become association lists over an inductive value
  type `DVal` (`vdict` plays the role of a dict literal).  Python dicts
  have unique keys; on such lists `List.filter` key-removal agrees with
  single-entry deletion.
* Python exceptions become an inductive error type `PyErr` and fallible
  code returns `Except PyErr _`.  `KeyError` carries the offending key,
  and the `raise Exception(...) from e` in `from_dict` becomes
  `constructionError` carrying the layer type, the argument set and the
  wrapped cause.
* Recursion in `from_dict`/`to_dict` is fuel-indexed; running out of fuel
  is `recursionError` (Python's recursion limit behaves the same way).
* Tensor values, tensor-level shape/range validation done inside torch
  primitives (negative channel counts etc.), and Python's bool-as-int
  coercion for numeric keyword arguments are elided: the spec treats the
  tensor engine as an opaque external collaborator.  Structural
  hyperparameters are kept exactly.
-/

namespace Bonito

/-- A Python value as it appears in a model document: ints, floats
(modelled as rationals), bools, strings, `None`, lists and dicts. -/
inductive DVal where
  | vint (i : Int)
  | vfloat (q : Rat)
  | vbool (b : Bool)
  | vstr (s : String)
  | vnone
  | vlist (xs : List DVal)
  | vdict (fields : List (String × DVal))

/-- A model document: the field list of a Python dict. -/
abbrev Doc := List (String × DVal)

/-- Python truthiness of a document value (`if self.activation`, `if boom`,
`bias=` flags). -/
def pyTruthy : DVal → Bool
  | .vint i => i != 0
  | .vfloat q => q != 0
  | .vbool b => b
  | .vstr s => s != ""
  | .vnone => false
  | .vlist xs => !xs.isEmpty
  | .vdict fields => !fields.isEmpty

/-- The registered layer classes of `bonito/nn.py` (registration order of
the source: lines 20-331). -/
inductive LayerType where
  | relu | tanh | swish | serial | reverse | convolution
  | linearcrfencoder | sha | mha | layerscale | feedforward
  | boom | shablock | permute | lstm
deriving DecidableEq, Repr

/-- `__name__` of each registered class. -/
def pyTypeName : LayerType → String
  | .relu => "ReLU"
  | .tanh => "Tanh"
  | .swish => "Swish"
  | .serial => "Serial"
  | .reverse => "Reverse"
  | .convolution => "Convolution"
  | .linearcrfencoder => "LinearCRFEncoder"
  | .sha => "SHA"
  | .mha => "MHA"
  | .layerscale => "LayerScale"
  | .feedforward => "FeedForward"
  | .boom => "Boom"
  | .shablock => "SHABlock"
  | .permute => "Permute"
  | .lstm => "LSTM"

/-- Python `str.lower()` on an ASCII class name, character by character. -/
def strLower (s : String) : String := String.mk (s.data.map Char.toLower)

/-- The canonical registry name: `layer.__name__.lower()` (nn.py:15). -/
def lowerName (t : LayerType) : String := strLower (pyTypeName t)

/-- Python dict lookup `d[k]` / `d.get(k)` over an association list
(keys of a Python dict are unique, so first match is the match). -/
def pyGet (fields : List (String × α)) (k : String) : Option α :=
  match fields with
  | [] => none
  | kv :: rest => if k = kv.1 then some kv.2 else pyGet rest k

/-- Python dict assignment `d[k] = v`: overwrite in place if the key
exists (keeping insertion order), else append. -/
def dictSet : List (String × α) → String → α → List (String × α)
  | [], k, v => [(k, v)]
  | kv :: rest, k, v => if kv.1 = k then (k, v) :: rest else kv :: dictSet rest k v

/-- `register(layer)` (nn.py:14-17): sets `layer.name` to the lowercased
class name, stores the class in the global `layers` mapping and returns
the class itself (the very object it was given).  The `.name` attribute
assignment is reflected by `layerName` below; the registry update is the
returned state. -/
def register (t : LayerType) (reg : List (String × LayerType)) :
    LayerType × List (String × LayerType) :=
  (t, dictSet reg (lowerName t) t)

/-- The classes registered at module load, in source order. -/
def registrationOrder : List LayerType :=
  [.relu, .tanh, .swish, .serial, .reverse, .convolution, .linearcrfencoder,
   .sha, .mha, .layerscale, .feedforward, .boom, .shablock, .permute, .lstm]

/-- The global `layers` mapping after `bonito.nn` has been imported. -/
def layersDefault : List (String × LayerType) :=
  registrationOrder.foldl (fun r t => (register t r).2) []

/-- `layers[name]` lookup against the default registry. -/
def registryLookup (s : String) : Option LayerType :=
  pyGet layersDefault s

/-- A constructed layer object.  Fields mirror exactly what each
`__init__` in nn.py stores (for torch submodules: the constructor
arguments that determine their shapes).  `lstm` stores the torch
`rnn.input_size` and `rnn.hidden_size`, in that order, as produced by
`RNNWrapper.__init__` forwarding `(size, insize)` positionally to
`torch.nn.LSTM(input_size, hidden_size)` (nn.py:299, 334-335).
`Convolution`/`LinearCRFEncoder` store their activation as either a
constructed layer or the raw non-registered value
(`layers.get(activation, lambda: activation)()`, nn.py:64, 98); raw
Python values that are stored verbatim (`scale`, `blank_score`, `dims`,
LSTM `bias`/`reverse`) are kept as `DVal`. -/
inductive Node where
  | relu
  | tanh
  | swish
  | serial (sublayers : List Node)
  | reverse (layer : Node)
  | convolution (insize size winlen stride padding : Int) (bias : Bool)
      (activation : Sum Node DVal)
  | linearcrfencoder (insize n_base state_len : Int) (bias : Bool)
      (scale : DVal) (activation : Sum Node DVal) (blank_score : DVal)
  | sha (dim : Int) (dropout : Rat)
  | mha (dim heads dim_head : Int) (dropout : Rat)
  | layerscale (features : Int) (eps : Rat)
  | feedforward (dim mult : Int) (dropout : Rat)
  | boom (dim mult : Int) (dropout : Rat)
  | shablock (dim : Int) (attn_dropout ff_dropout : Rat)
      (num_attn_heads ff_mult : Int) (boomFlag : Bool)
  | permute (dims : DVal)
  | lstm (input_size hidden_size : Int) (bias : DVal) (reverse : DVal)

/-- The `.name` attribute an instance sees: `register` stored the
lowercased class name on every registered class (nn.py:15). -/
def layerName : Node → String
  | .relu => "relu"
  | .tanh => "tanh"
  | .swish => "swish"
  | .serial _ => "serial"
  | .reverse _ => "reverse"
  | .convolution _ _ _ _ _ _ _ => "convolution"
  | .linearcrfencoder _ _ _ _ _ _ _ => "linearcrfencoder"
  | .sha _ _ => "sha"
  | .mha _ _ _ _ => "mha"
  | .layerscale _ _ => "layerscale"
  | .feedforward _ _ _ => "feedforward"
  | .boom _ _ _ => "boom"
  | .shablock _ _ _ _ _ _ => "shablock"
  | .permute _ => "permute"
  | .lstm _ _ _ _ => "lstm"

/-- A keyword-argument value at construction time: after `from_dict` has
replaced `sublayers` it is either a raw document value, a built layer,
or a list of built layers. -/
inductive AVal where
  | dv (v : DVal)
  | node (n : Node)
  | nodes (ns : List Node)

/-- Python exceptions raised by the embedded code.  `constructionError`
models nn.py:373: `raise Exception(f'Failed to build layer of type {typ}
with args {model_dict}') from e` -- it carries the resolved layer type,
the full argument set and the chained cause. -/
inductive PyErr where
  | keyError (k : DVal)
  | typeError
  | attributeError
  | valueError
  | recursionError
  | checkpointMismatch
  | runtimeError
  | constructionError (typ : LayerType) (args : List (String × AVal)) (cause : PyErr)

/-- `model_dict.pop('type')`: `KeyError('type')` when absent, otherwise the
value and the dict without the key (keys of a Python dict are unique). -/
def popKey (k : String) (fields : Doc) : Except PyErr (DVal × Doc) :=
  match pyGet fields k with
  | none => .error (.keyError (.vstr k))
  | some v => .ok (v, fields.filter (fun kv => kv.1 != k))

/-- `layers[type_name]` (nn.py:364): a dict lookup.  Unhashable keys
(lists, dicts) raise `TypeError`; a hashable key that is absent raises
the generic `KeyError` carrying the key. -/
def resolveType (v : DVal) : Except PyErr LayerType :=
  match v with
  | .vlist _ => .error .typeError
  | .vdict _ => .error .typeError
  | .vstr s =>
    match registryLookup s with
    | some t => .ok t
    | none => .error (.keyError (.vstr s))
  | other => .error (.keyError other)

/-- Argument lookup in the keyword set passed to a constructor. -/
def getArg (args : List (String × AVal)) (k : String) : Option AVal :=
  pyGet args k

/-- A required int-valued constructor parameter (missing or ill-typed
arguments raise `TypeError`; torch-level coercions are elided). -/
def reqInt (args : List (String × AVal)) (k : String) : Except PyErr Int :=
  match getArg args k with
  | some (.dv (.vint i)) => .ok i
  | some _ => .error .typeError
  | none => .error .typeError

/-- An optional int-valued constructor parameter with default. -/
def optInt (args : List (String × AVal)) (k : String) (d : Int) : Except PyErr Int :=
  match getArg args k with
  | some (.dv (.vint i)) => .ok i
  | some _ => .error .typeError
  | none => .ok d

/-- An optional flag parameter used only for its truthiness
(`bias=` of Conv1d/Linear, `boom=` of SHABlock). -/
def optTruthy (args : List (String × AVal)) (k : String) (d : Bool) : Except PyErr Bool :=
  match getArg args k with
  | some (.dv v) => .ok (pyTruthy v)
  | some (.node _) => .ok true
  | some (.nodes _) => .ok true
  | none => .ok d

/-- An optional parameter stored verbatim by the constructor
(`scale`, `blank_score`, `dims`, LSTM `bias`/`reverse`). -/
def optRaw (args : List (String × AVal)) (k : String) (d : DVal) : Except PyErr DVal :=
  match getArg args k with
  | some (.dv v) => .ok v
  | some _ => .error .typeError
  | none => .ok d

/-- An optional dropout probability: `torch.nn.Dropout(p)` accepts a
number in `[0, 1]` and raises otherwise. -/
def optDropout (args : List (String × AVal)) (k : String) (d : Rat) : Except PyErr Rat :=
  match getArg args k with
  | some (.dv (.vint i)) =>
    if 0 ≤ i ∧ i ≤ 1 then .ok (i : Rat) else .error .valueError
  | some (.dv (.vfloat q)) =>
    if 0 ≤ q ∧ q ≤ 1 then .ok q else .error .valueError
  | some (.dv (.vbool b)) => .ok (if b then 1 else 0)
  | some _ => .error .typeError
  | none => .ok d

/-- An optional plain numeric parameter (`eps` of LayerScale). -/
def optNum (args : List (String × AVal)) (k : String) (d : Rat) : Except PyErr Rat :=
  match getArg args k with
  | some (.dv (.vint i)) => .ok (i : Rat)
  | some (.dv (.vfloat q)) => .ok q
  | some (.dv (.vbool b)) => .ok (if b then 1 else 0)
  | some _ => .error .typeError
  | none => .ok d

/-- Construction of a registered class with zero arguments, as done by
`layers.get(activation, ...)()`: only the parameterless activations
succeed, every other registered class has required parameters and
raises `TypeError`. -/
def nullaryConstruct (t : LayerType) : Except PyErr Node :=
  match t with
  | .relu => .ok .relu
  | .tanh => .ok .tanh
  | .swish => .ok .swish
  | _ => .error .typeError

/-- `layers.get(activation, lambda: activation)()` (nn.py:64, 98): a
registered name constructs that activation layer; any other hashable
value is returned verbatim; unhashable values raise `TypeError` at the
dict lookup. -/
def mkActivation (v : DVal) : Except PyErr (Sum Node DVal) :=
  match v with
  | .vlist _ => .error .typeError
  | .vdict _ => .error .typeError
  | .vstr s =>
    match registryLookup s with
    | some t => (nullaryConstruct t).map .inl
    | none => .ok (.inr (.vstr s))
  | other => .ok (.inr other)

/-- The activation argument of Convolution/LinearCRFEncoder
(default `None`). -/
def optActivation (args : List (String × AVal)) : Except PyErr (Sum Node DVal) :=
  match getArg args "activation" with
  | some (.dv v) => mkActivation v
  | some _ => .error .typeError
  | none => .ok (.inr .vnone)

/-- The keyword parameters accepted by each registered constructor
(`inplace` comes from the torch base classes of ReLU/Swish). -/
def acceptedKeys : LayerType → List String
  | .relu => ["inplace"]
  | .tanh => []
  | .swish => ["inplace"]
  | .serial => ["sublayers"]
  | .reverse => ["sublayers"]
  | .convolution => ["insize", "size", "winlen", "stride", "padding", "bias", "activation"]
  | .linearcrfencoder => ["insize", "n_base", "state_len", "bias", "scale", "activation", "blank_score"]
  | .sha => ["dim", "dropout"]
  | .mha => ["dim", "heads", "dim_head", "dropout"]
  | .layerscale => ["features", "eps"]
  | .feedforward => ["dim", "mult", "dropout"]
  | .boom => ["dim", "mult", "dropout"]
  | .shablock => ["dim", "attn_dropout", "ff_dropout", "num_attn_heads", "ff_mult", "boom"]
  | .permute => ["dims"]
  | .lstm => ["size", "insize", "bias", "reverse"]

/-- The per-type construction after keyword binding succeeded. -/
def buildCore (t : LayerType) (args : List (String × AVal)) : Except PyErr Node :=
  match t with
  | .relu => .ok .relu
  | .tanh => .ok .tanh
  | .swish => .ok .swish
  | .serial =>
    match getArg args "sublayers" with
    | some (.nodes ns) => .ok (.serial ns)
    | _ => .error .typeError
  | .reverse =>
    -- via from_dict the argument is always an already-built layer or list
    -- of layers (nn.py:46: a list is wrapped in Serial)
    match getArg args "sublayers" with
    | some (.nodes ns) => .ok (.reverse (.serial ns))
    | some (.node n) => .ok (.reverse n)
    | _ => .error .typeError
  | .convolution => do
    let insize ← reqInt args "insize"
    let size ← reqInt args "size"
    let winlen ← reqInt args "winlen"
    let stride ← optInt args "stride" 1
    let padding ← optInt args "padding" 0
    let bias ← optTruthy args "bias" true
    let act ← optActivation args
    .ok (.convolution insize size winlen stride padding bias act)
  | .linearcrfencoder => do
    let insize ← reqInt args "insize"
    let n_base ← reqInt args "n_base"
    let state_len ← reqInt args "state_len"
    let bias ← optTruthy args "bias" true
    let scale ← optRaw args "scale" .vnone
    let act ← optActivation args
    let blank_score ← optRaw args "blank_score" .vnone
    .ok (.linearcrfencoder insize n_base state_len bias scale act blank_score)
  | .sha => do
    let dim ← reqInt args "dim"
    let dropout ← optDropout args "dropout" 0
    .ok (.sha dim dropout)
  | .mha => do
    let dim ← reqInt args "dim"
    let heads ← optInt args "heads" 4
    let dim_head ← optInt args "dim_head" 64
    let dropout ← optDropout args "dropout" 0
    .ok (.mha dim heads dim_head dropout)
  | .layerscale => do
    let features ← reqInt args "features"
    let eps ← optNum args "eps" (1 / 100000)
    .ok (.layerscale features eps)
  | .feedforward => do
    let dim ← reqInt args "dim"
    let mult ← optInt args "mult" 4
    let dropout ← optDropout args "dropout" 0
    .ok (.feedforward dim mult dropout)
  | .boom => do
    let dim ← reqInt args "dim"
    let mult ← optInt args "mult" 4
    let dropout ← optDropout args "dropout" 0
    .ok (.boom dim mult dropout)
  | .shablock => do
    let dim ← reqInt args "dim"
    let attn_dropout ← optDropout args "attn_dropout" 0
    let ff_dropout ← optDropout args "ff_dropout" 0
    let num_attn_heads ← optInt args "num_attn_heads" 1
    let ff_mult ← optInt args "ff_mult" 4
    let boomFlag ← optTruthy args "boom" false
    .ok (.shablock dim attn_dropout ff_dropout num_attn_heads ff_mult boomFlag)
  | .permute =>
    match getArg args "dims" with
    | some (.dv v) => .ok (.permute v)
    | _ => .error .typeError
  | .lstm => do
    -- RNNWrapper forwards (size, insize) positionally to
    -- torch.nn.LSTM(input_size, hidden_size) (nn.py:299, 335):
    -- rnn.input_size = size and rnn.hidden_size = insize.
    let size ← reqInt args "size"
    let insize ← reqInt args "insize"
    let bias ← optRaw args "bias" (.vbool true)
    let reverse ← optRaw args "reverse" (.vbool false)
    .ok (.lstm size insize bias reverse)

/-- `typ(**model_dict)`: keyword binding rejects any keyword the
constructor does not accept (`TypeError: unexpected keyword argument`),
then the constructor body runs. -/
def buildLayer (t : LayerType) (args : List (String × AVal)) : Except PyErr Node :=
  if args.any (fun kv => !((acceptedKeys t).contains kv.1)) then .error .typeError
  else buildCore t args

/-- The `sublayers` pre-pass of `from_dict` (nn.py:365-369): every entry
of the remaining document becomes a keyword argument; the `sublayers`
entry is recursively deserialized first (a list of documents
element-wise, anything else as a single document). -/
def buildArgs (fd : DVal → Except PyErr Node) (fields : Doc) :
    Except PyErr (List (String × AVal)) :=
  fields.mapM (fun kv =>
    if kv.1 = "sublayers" then
      match kv.2 with
      | .vlist xs => do
        let ns ← xs.mapM fd
        pure (kv.1, AVal.nodes ns)
      | x => do
        let n ← fd x
        pure (kv.1, AVal.node n)
    else pure (kv.1, AVal.dv kv.2))

/-- `from_dict(model_dict, layer_types=None)` (nn.py:359-374) against the
default registry.  A non-dict argument fails on `model_dict.copy()`
(`AttributeError`; for a list, on `.pop('type')` with `TypeError`).
The copy itself is invisible at this pure level; the heap-level
`fromDictH` below makes it explicit. -/
def from_dict : Nat → DVal → Except PyErr Node
  | 0, _ => .error .recursionError
  | fuel + 1, v =>
    match v with
    | .vdict fields =>
      match popKey "type" fields with
      | .error e => .error e
      | .ok (tv, rest) =>
        match resolveType tv with
        | .error e => .error e
        | .ok t =>
          match buildArgs (from_dict fuel) rest with
          | .error e => .error e
          | .ok args =>
            match buildLayer t args with
            | .ok layer => .ok layer
            | .error e => .error (.constructionError t args e)
    | .vlist _ => .error .typeError
    | _ => .error .attributeError

/-- Serialization of the activation member
(`self.activation.name if self.activation else None`, nn.py:79, 120):
a stored layer has a `.name`; a truthy raw value has none
(`AttributeError`); a falsy raw value serializes as `None`. -/
def actField : Sum Node DVal → Except PyErr DVal
  | .inl n => .ok (.vstr (layerName n))
  | .inr v => if pyTruthy v then .error .attributeError else .ok .vnone

/-- `to_dict(layer, include_weights=False)` (nn.py:353-356 together with
the per-class `to_dict` methods).  Classes without a `to_dict` method
(the activations and the attention-family layers) serialize as their
type name alone.  The `include_weights=True` branch only adds a
`params` entry of tensors and is out of scope (tensors are external). -/
def to_dict : Nat → Node → Except PyErr Doc
  | 0, _ => .error .recursionError
  | fuel + 1, n =>
    match n with
    | .relu => .ok [("type", .vstr "relu")]
    | .tanh => .ok [("type", .vstr "tanh")]
    | .swish => .ok [("type", .vstr "swish")]
    | .sha _ _ => .ok [("type", .vstr "sha")]
    | .mha _ _ _ _ => .ok [("type", .vstr "mha")]
    | .layerscale _ _ => .ok [("type", .vstr "layerscale")]
    | .feedforward _ _ _ => .ok [("type", .vstr "feedforward")]
    | .boom _ _ _ => .ok [("type", .vstr "boom")]
    | .shablock _ _ _ _ _ _ => .ok [("type", .vstr "shablock")]
    | .serial subs => do
      let ds ← subs.mapM (to_dict fuel)
      .ok [("type", .vstr "serial"), ("sublayers", .vlist (ds.map .vdict))]
    | .reverse l =>
      match l with
      | .serial subs => do
        let ds ← subs.mapM (to_dict fuel)
        .ok [("type", .vstr "reverse"), ("sublayers", .vlist (ds.map .vdict))]
      | other => do
        let d ← to_dict fuel other
        .ok [("type", .vstr "reverse"), ("sublayers", .vdict d)]
    | .convolution insize size winlen stride padding bias act => do
      let a ← actField act
      .ok [("type", .vstr "convolution"), ("insize", .vint insize),
           ("size", .vint size), ("bias", .vbool bias), ("winlen", .vint winlen),
           ("stride", .vint stride), ("padding", .vint padding), ("activation", a)]
    | .linearcrfencoder insize n_base state_len bias scale act blank_score => do
      let a ← actField act
      .ok [("type", .vstr "linearcrfencoder"), ("insize", .vint insize),
           ("n_base", .vint n_base), ("state_len", .vint state_len),
           ("bias", .vbool bias), ("scale", scale), ("activation", a),
           ("blank_score", blank_score)]
    | .permute dims => .ok [("type", .vstr "permute"), ("dims", dims)]
    | .lstm input_size hidden_size bias reverse =>
      -- LSTM.to_dict (nn.py:337-343) reads 'size' from rnn.hidden_size and
      -- 'insize' from rnn.input_size.
      .ok [("type", .vstr "lstm"), ("size", .vint hidden_size),
           ("insize", .vint input_size), ("bias", bias), ("reverse", reverse)]

/-- Composition `from_dict(to_dict(node, include_weights=False))` at a
given recursion budget. -/
def roundTrip (fuel : Nat) (n : Node) : Except PyErr Node :=
  (to_dict fuel n).bind (fun d => from_dict fuel (.vdict d))

/-!
## Checkpoint selector and training loop (`bonito/training.py`)
-/

/-- One decimal digit character. -/
def digitCh : Nat → Char
  | 0 => '0' | 1 => '1' | 2 => '2' | 3 => '3' | 4 => '4'
  | 5 => '5' | 6 => '6' | 7 => '7' | 8 => '8' | _ => '9'

/-- Numeric value of a digit character. -/
def chDigitVal (c : Char) : Nat := c.toNat - 48

/-- Value of a decimal digit string (most significant first). -/
def digitsValNat (ds : List Char) : Nat :=
  ds.foldl (fun acc c => 10 * acc + chDigitVal c) 0

/-- Decimal rendering of a natural number (Python `str(epoch)`), fuel
indexed; `n + 1` fuel always suffices since `n / 10 < n`. -/
def natDigitsAux : Nat → Nat → List Char
  | 0, _ => []
  | fuel + 1, n =>
    if n < 10 then [digitCh n]
    else natDigitsAux fuel (n / 10) ++ [digitCh (n % 10)]

/-- Decimal rendering of a natural number. -/
def natDigits (n : Nat) : List Char := natDigitsAux (n + 1) n

/-- The checkpoint filename `'weights_%s.tar' % epoch`
(training.py:101, 226); directory names are irrelevant to the epoch
arithmetic and are dropped. -/
def mkWeightFile (n : Nat) : List Char :=
  "weights_".data ++ natDigits n ++ ".tar".data

/-- `glob("weights_*.tar")` filename test: `fnmatch` semantics for this
pattern -- the name starts with `weights_`, ends with `.tar`, and `*`
matches any (possibly empty) infix. -/
def globWeights (cs : List Char) : Bool :=
  decide (12 ≤ cs.length) && decide (cs.take 8 = "weights_".data)
    && decide (cs.drop (cs.length - 4) = ".tar".data)

/-- Regex tail `.tar` (a dot matches any character): consume one
arbitrary character then the literal `tar`. -/
def anyTar : List Char → Option (List Char)
  | _ :: 't' :: 'a' :: 'r' :: rest => some rest
  | _ => none

/-- Backtracking for the greedy `([0-9]+)` group: the reversed unconsumed
digit run is tried longest first, giving digits back one at a time until
`.tar` matches what follows; on success returns the captured digits and
the rest of the input after the match. -/
def descendDigits : List Char → List Char → List Char → Option (List Char × List Char)
  | [], _, _ => none
  | d :: rds, acc, rs =>
    match anyTar (acc ++ rs) with
    | some rest => some ((d :: rds).reverse, rest)
    | none => descendDigits rds (d :: acc) rs

/-- Attempt to match `([0-9]+).tar` directly after an underscore. -/
def matchAfterUnderscore (cs : List Char) : Option (List Char × List Char) :=
  descendDigits (cs.takeWhile Char.isDigit).reverse [] (cs.dropWhile Char.isDigit)

/-- One match of the pattern `.*_([0-9]+).tar` (training.py:96).  The
greedy `.*` makes the regex engine commit to the rightmost underscore
from which the remainder of the pattern can match; a match always starts
at the scan position because `.*` begins the pattern.  Returns the
captured digit group and the input remaining after the match. -/
def findUMatch : List Char → Option (List Char × List Char)
  | [] => none
  | c :: rest =>
    match findUMatch rest with
    | some r => some r
    | none => if c = '_' then matchAfterUnderscore rest else none

/-- `re.sub(".*_([0-9]+).tar", "\\1", w)`: each match is replaced by its
captured digits and scanning resumes after the match; unmatched text is
kept.  Fuel is the input length (every match consumes at least six
characters). -/
def reSubAux : Nat → List Char → List Char
  | 0, cs => cs
  | fuel + 1, cs =>
    match findUMatch cs with
    | some (cap, rest) => cap ++ reSubAux fuel rest
    | none => cs

/-- `re.sub(".*_([0-9]+).tar", "\\1", w)` on a whole filename. -/
def reSub (cs : List Char) : List Char := reSubAux cs.length cs

/-- Digit-run parse used by `int(...)`. -/
def pyDigits (ds : List Char) : Except PyErr Nat :=
  if ds ≠ [] ∧ ds.all Char.isDigit then .ok (digitsValNat ds) else .error .valueError

/-- Whitespace trimming done by Python `int(str)`. -/
def trimSpaces (cs : List Char) : List Char :=
  ((cs.dropWhile Char.isWhitespace).reverse.dropWhile Char.isWhitespace).reverse

/-- Python `int(s)`: optional sign followed by a non-empty digit run
(after trimming whitespace); anything else raises `ValueError`. -/
def pyInt (cs : List Char) : Except PyErr Int :=
  match trimSpaces cs with
  | [] => .error .valueError
  | c :: rest =>
    if c = '-' then (pyDigits rest).map (fun m => -(m : Int))
    else if c = '+' then (pyDigits rest).map (fun m => (m : Int))
    else (pyDigits (c :: rest)).map (fun m => (m : Int))

/-- Python `max` over a list (raises on an empty list; never reached by
`load_state`, which guards on emptiness first). -/
def pyMax : List Int → Except PyErr Int
  | [] => .error .valueError
  | x :: xs => .ok (xs.foldl max x)

/-- The epoch determination of `load_state` (training.py:92-96, 110-113):
glob the checkpoint names, extract each numeric suffix with `re.sub` and
`int`, and return the maximum, or 0 when no filename matches the glob.
(`if weight_no:` returns 0 exactly when the maximum itself is 0, so the
returned epoch is always the maximum of the extracted numbers.) -/
def latest_epoch (files : List (List Char)) : Except PyErr Int :=
  match files.filter globWeights with
  | [] => .ok 0
  | wfiles => do
    let ns ← wfiles.mapM (fun f => pyInt (reSub f))
    pyMax ns

/-- A saved parameter tensor: its shape, plus an identity tag so that
theorems can track which saved tensor ends up on which target
parameter.  Tensor numerics are external. -/
structure Tensor where
  shape : List Nat
  tag : Nat
deriving DecidableEq, Repr

/-- Modelled from the spec: `match_names` is imported from
`bonito/util.py`, which is not among the sources here.  Spec section 4.3:
it computes a name-correspondence between saved parameter keys and the
target model's expected parameter keys, based on structural position and
tensor shape compatibility, failing as a checkpoint mismatch when no
compatible counterpart exists.  Position-wise shape agreement therefore
pairs the i-th saved key with the i-th target key. -/
def match_names (state_dict : List (String × Tensor))
    (target : List (String × List Nat)) : Except PyErr (List (String × String)) :=
  if state_dict.length = target.length
      ∧ (state_dict.zip target).all (fun p => p.1.2.shape == p.2.2) then
    .ok ((state_dict.map Prod.fst).zip (target.map Prod.fst))
  else .error .checkpointMismatch

/-- `k.replace('module.', '')` scanning: at each position either the
literal `module.` matches and is dropped (scanning resumes after it), or
one character is emitted.  Fuel is the input length. -/
def stripModuleAux : Nat → List Char → List Char
  | 0, cs => cs
  | _ + 1, [] => []
  | fuel + 1, c :: rest =>
    if (c :: rest).take 7 = "module.".data then stripModuleAux fuel ((c :: rest).drop 7)
    else c :: stripModuleAux fuel rest

/-- `k.replace('module.', '')` (training.py:106). -/
def replaceModule (s : String) : String :=
  String.mk (stripModuleAux s.data.length s.data)

/-- `model.load_state_dict(new_state_dict)` with torch's default strict
checking (external collaborator): the provided mapping must cover
exactly the expected parameter names with matching shapes; the result is
the accepted assignment. -/
def load_state_dict_strict (target : List (String × List Nat))
    (sd : List (String × Tensor)) : Except PyErr (List (String × Tensor)) :=
  if sd.map Prod.fst = target.map Prod.fst
      ∧ (sd.zip target).all (fun p => p.1.2.shape == p.2.2) then
    .ok sd
  else .error .runtimeError

/-- The checkpoint-alignment core of `load_state` (training.py:103-109):
rekey the saved mapping along `match_names`, strip `module.` from every
key, and load the result into the model. -/
def align_state (state_dict : List (String × Tensor))
    (target : List (String × List Nat)) : Except PyErr (List (String × Tensor)) := do
  let m ← match_names state_dict target
  let sd2 ← m.mapM (fun kk =>
    match pyGet state_dict kk.1 with
    | some v => Except.ok (kk.2, v)
    | none => Except.error (PyErr.keyError (.vstr kk.1)))
  let nsd := sd2.map (fun kv => (replaceModule kv.1, kv.2))
  load_state_dict_strict target nsd

/-- The per-example accuracy computation of `Trainer.validate_one_step`
(training.py:191-193): one entry per `(ref, seq)` pair of the batch,
`accuracy(ref, seq, min_coverage=0.5)` when the called sequence is
non-empty and `0.` otherwise.  `accuracy` itself lives in
`bonito/util.py` (not among the sources); per spec sections 4.4 and 7 it
is a total scoring function that never raises, so it is taken as an
arbitrary function parameter here. -/
def validation_accs (accuracy : List Char → List Char → Rat → Rat)
    (refs seqs : List (List Char)) : List Rat :=
  List.zipWith
    (fun ref seq => if seq.length ≠ 0 then accuracy ref seq (1 / 2) else 0)
    refs seqs

/-- The phase of an epoch iteration of `Trainer.fit` (training.py:220-245)
during which a `KeyboardInterrupt` arrives.  `train`, `save` and
`validate` happen inside the `try` block; the epoch print and the
`training.csv` append happen after the `except` clause. -/
inductive Phase where
  | train
  | save
  | validate
  | log
deriving DecidableEq, Repr

/-- Observable state of a training run: the epochs whose checkpoint file
`weights_<epoch>.tar` has been written, and the epochs logged to
`training.csv`.  Saving only ever appends a new per-epoch file; no
operation rewrites or deletes an existing checkpoint. -/
structure FitState where
  checkpoints : List Nat
  trainingLog : List Nat
deriving DecidableEq, Repr

/-- Result of `Trainer.fit`: either a normal return or an exception that
escaped `fit`. -/
inductive FitOutcome where
  | done (st : FitState)
  | uncaught (st : FitState)
deriving DecidableEq, Repr

/-- Whether (and in which phase) the single injected interruption fires
during the given epoch. -/
def interruptPhase (interruptAt : Option (Nat × Phase)) (epoch : Nat) : Option Phase :=
  match interruptAt with
  | some (e, ph) => if e = epoch then some ph else none
  | none => none

/-- The epoch loop of `Trainer.fit` (training.py:220-245), with a single
user interruption injected at a given epoch and phase.  Inside the
`try`: an interrupt during training discards the epoch; during the
checkpoint save the file for the current epoch is not completed; during
validation the checkpoint for the current epoch has already been
written.  All three are caught by `except KeyboardInterrupt: break`.  An
interrupt during the post-`try` logging is not caught and escapes
`fit`. -/
def fitRun (interruptAt : Option (Nat × Phase)) : Nat → Nat → FitState → FitOutcome
  | _, 0, st => .done st
  | epoch, count + 1, st =>
    match interruptPhase interruptAt epoch with
    | some .train => .done st
    | some .save => .done st
    | some .validate => .done { st with checkpoints := st.checkpoints ++ [epoch] }
    | some .log => .uncaught { st with checkpoints := st.checkpoints ++ [epoch] }
    | none =>
      fitRun interruptAt (epoch + 1) count
        { st with
          checkpoints := st.checkpoints ++ [epoch],
          trainingLog := st.trainingLog ++ [epoch] }

/-!
## Heap-level model of `from_dict` (claim C10)

`from_dict` starts with `model_dict = model_dict.copy()` and then calls
`pop` and item-assignment on that copy (nn.py:360-369).  To state that
the caller's document is left untouched, dict objects are modelled as
heap cells addressed by natural numbers; the pure `from_dict` above is
the same algorithm with the (invisible) copy elided.
-/

/-- A Python runtime value for the heap-level model: dict objects live in
the heap and are referred to by address.  Lists are kept immutable
because `from_dict` never mutates a list in place -- it binds a freshly
built list into the copied dict. -/
inductive HVal where
  | hint (i : Int)
  | hfloat (q : Rat)
  | hbool (b : Bool)
  | hstr (s : String)
  | hnone
  | hlist (xs : List HVal)
  | href (a : Nat)
  | hnode (n : Node)

/-- The heap: dict objects by address, plus the next fresh address. -/
structure HeapSt where
  heap : List (Nat × List (String × HVal))
  next : Nat

/-- Address lookup (first match; a well-formed heap has unique
addresses). -/
def heapFind : List (Nat × List (String × HVal)) → Nat → Option (List (String × HVal))
  | [], _ => none
  | p :: rest, a => if a = p.1 then some p.2 else heapFind rest a

/-- The dict object stored at an address. -/
def heapGet (st : HeapSt) (a : Nat) : Option (List (String × HVal)) :=
  heapFind st.heap a

/-- In-place mutation of the dict object at an address. -/
def heapSet (st : HeapSt) (a : Nat) (obj : List (String × HVal)) : HeapSt :=
  ⟨st.heap.map (fun p => if p.1 = a then (a, obj) else p), st.next⟩

/-- Allocation of a fresh dict object (`model_dict.copy()`). -/
def heapAlloc (st : HeapSt) (obj : List (String × HVal)) : Nat × HeapSt :=
  (st.next, ⟨st.heap ++ [(st.next, obj)], st.next + 1⟩)

/-- Every stored address is below the allocation counter. -/
abbrev WFHeap (st : HeapSt) : Prop := ∀ p ∈ st.heap, p.1 < st.next

/-- The second heap extends the first: it is well formed, allocates
forward, and every object of the first heap is unchanged. -/
def HeapExtends (st stPost : HeapSt) : Prop :=
  WFHeap stPost ∧ st.next ≤ stPost.next
    ∧ ∀ a, a < st.next → heapGet stPost a = heapGet st a

/-- Snapshot of a heap value as a plain document value (dereferencing
dict references); fuel guards against reference cycles, on which the
Python original would not terminate either.  A layer object appearing as
a plain document value has no document form and is unreachable from real
documents. -/
def readBack : Nat → HeapSt → HVal → DVal
  | 0, _, _ => .vnone
  | _ + 1, _, .hint i => .vint i
  | _ + 1, _, .hfloat q => .vfloat q
  | _ + 1, _, .hbool b => .vbool b
  | _ + 1, _, .hstr s => .vstr s
  | _ + 1, _, .hnone => .vnone
  | fuel + 1, st, .hlist xs => .vlist (xs.map (readBack fuel st))
  | fuel + 1, st, .href a =>
    match heapGet st a with
    | none => .vnone
    | some fields => .vdict (fields.map (fun kv => (kv.1, readBack fuel st kv.2)))
  | _ + 1, _, .hnode _ => .vnone

/-- A list value consisting solely of built layers. -/
def allNodes : List HVal → Option (List Node)
  | [] => some []
  | .hnode n :: rest => (allNodes rest).map (fun ns => n :: ns)
  | _ => none

/-- A dict entry as the keyword call `typ(**model_dict)` receives it. -/
def toAVal (fuel : Nat) (st : HeapSt) (v : HVal) : AVal :=
  match v with
  | .hnode n => .node n
  | .hlist xs =>
    match allNodes xs with
    | some ns => .nodes ns
    | none => .dv (readBack fuel st (.hlist xs))
  | other => .dv (readBack fuel st other)

/-- State-passing fold of a heap computation over a list (the
`sublayers` comprehension of nn.py:367-369). -/
def stFold (f : HVal → HeapSt → (Except PyErr Node) × HeapSt) :
    List HVal → HeapSt → (Except PyErr (List Node)) × HeapSt
  | [], st => (.ok [], st)
  | x :: xs, st =>
    match f x st with
    | (.error e, st1) => (.error e, st1)
    | (.ok n, st1) =>
      match stFold f xs st1 with
      | (.error e, st2) => (.error e, st2)
      | (.ok ns, st2) => (.ok (n :: ns), st2)

/-- The construction step `typ(**model_dict)` of the heap-level model:
reads the copied dict and calls the constructor; the heap is not
touched. -/
def constructH (fuel : Nat) (st : HeapSt) (b : Nat) (t : LayerType) :
    (Except PyErr Node) × HeapSt :=
  match heapGet st b with
  | none => (.error .valueError, st)
  | some fields =>
    let args := fields.map (fun kv => (kv.1, toAVal fuel st kv.2))
    match buildLayer t args with
    | .ok n => (.ok n, st)
    | .error e => (.error (.constructionError t args e), st)

/-- Heap-level `from_dict` (nn.py:359-374): `model_dict.copy()` allocates
a fresh dict object; the `pop('type')` and the `sublayers` rebinding
mutate only that fresh copy; sublayer documents are deserialized
recursively before the parent constructor runs. -/
def fromDictH : Nat → HeapSt → HVal → (Except PyErr Node) × HeapSt
  | 0, st, _ => (.error .recursionError, st)
  | fuel + 1, st, v =>
    match v with
    | .href a =>
      match heapGet st a with
      | none => (.error .valueError, st)
      | some fields =>
        let (b, st1) := heapAlloc st fields
        match pyGet fields "type" with
        | none => (.error (.keyError (.vstr "type")), st1)
        | some tv =>
          let fields1 := fields.filter (fun kv => kv.1 != "type")
          let st2 := heapSet st1 b fields1
          match resolveType (readBack fuel st2 tv) with
          | .error e => (.error e, st2)
          | .ok t =>
            match pyGet fields1 "sublayers" with
            | some (.hlist xs) =>
              match stFold (fun x s => fromDictH fuel s x) xs st2 with
              | (.error e, st3) => (.error e, st3)
              | (.ok ns, st3) =>
                constructH fuel
                  (heapSet st3 b
                    (dictSet fields1 "sublayers" (.hlist (ns.map .hnode)))) b t
            | some other =>
              match fromDictH fuel st2 other with
              | (.error e, st3) => (.error e, st3)
              | (.ok n, st3) =>
                constructH fuel
                  (heapSet st3 b (dictSet fields1 "sublayers" (.hnode n))) b t
            | none => constructH fuel st2 b t
    | .hlist _ => (.error .typeError, st)
    | _ => (.error .attributeError, st)
end Bonito

namespace Bonito

/-! ## Serializer theorems (claims C1-C4) -/

/-- C1: the structural round-trip law fails on the code.  The layer built
by `LSTM(size=2, insize=3)` (an LSTM whose torch module has
`input_size=2, hidden_size=3`) serializes and deserializes to the layer
built by `LSTM(size=3, insize=2)` (`input_size=3, hidden_size=2`): the
two dimensions are exchanged by every round trip, so the reconstructed
node is not structurally identical to the original. -/
theorem lstm_roundtrip_swaps_dims :
    buildLayer .lstm [("size", .dv (.vint 2)), ("insize", .dv (.vint 3))]
      = .ok (Node.lstm 2 3 (.vbool true) (.vbool false))
    ∧ roundTrip 9 (Node.lstm 2 3 (.vbool true) (.vbool false))
      = .ok (Node.lstm 3 2 (.vbool true) (.vbool false))
    ∧ Node.lstm 3 2 (.vbool true) (.vbool false)
      ≠ Node.lstm 2 3 (.vbool true) (.vbool false) := by
  refine ⟨rfl, rfl, ?_⟩
  intro h
  injection h with h1 h2 h3 h4
  exact absurd h1 (by decide)

/-- C2 counterexample: deserializing a document whose `type` names an
unregistered layer fails with the generic mapping `KeyError` carrying
the name -- the very same error species raised for a plain missing
`type` key -- not with a dedicated `UnknownLayerType` error. -/
theorem from_dict_unknown_type_generic_keyerror :
    from_dict 1 (.vdict [("type", .vstr "quux")]) = .error (.keyError (.vstr "quux"))
    ∧ from_dict 1 (.vdict []) = .error (.keyError (.vstr "type")) :=
  ⟨rfl, rfl⟩

/-- C2 amended: for every document whose `type` field is a string absent
from the registry, `from_dict` fails with `KeyError` carrying the
offending name (raised by the `layers[type_name]` lookup). -/
theorem from_dict_unknown_type (fuel : Nat) (fields : Doc) (s : String)
    (h1 : pyGet fields "type" = some (.vstr s))
    (h2 : registryLookup s = none) :
    from_dict (fuel + 1) (.vdict fields) = .error (.keyError (.vstr s)) := by
  simp [from_dict, popKey, resolveType, h1, h2]

/-- C2 witness: a concrete document with an unregistered type name. -/
theorem from_dict_unknown_type_witness :
    from_dict 3 (.vdict [("type", .vstr "qrnn"), ("size", .vint 5)])
      = .error (.keyError (.vstr "qrnn")) :=
  from_dict_unknown_type 2 _ "qrnn" rfl rfl

/-- C3: when the document's `type` resolves, (a) any failure while
recursively deserializing `sublayers` surfaces before the parent
constructor is invoked, and (b) a constructor failure is wrapped in an
error that chains the underlying cause and carries the resolved layer
type together with the full argument set (in which `sublayers` are the
already-built child layers). -/
theorem from_dict_wraps_construction_failure (fuel : Nat) (fields : Doc)
    (tv : DVal) (rest : Doc) (t : LayerType)
    (h1 : popKey "type" fields = .ok (tv, rest))
    (h2 : resolveType tv = .ok t) :
    (∀ e, buildArgs (from_dict fuel) rest = .error e →
      from_dict (fuel + 1) (.vdict fields) = .error e)
    ∧ (∀ args e, buildArgs (from_dict fuel) rest = .ok args →
      buildLayer t args = .error e →
      from_dict (fuel + 1) (.vdict fields) = .error (.constructionError t args e)) := by
  constructor
  · intro e h3
    simp [from_dict, h1, h2, h3]
  · intro args e h3 h4
    simp [from_dict, h1, h2, h3, h4]

/-- C3 witness: `Permute` with no `dims` argument fails, and `from_dict`
reports the wrapped construction error with the type and the (empty)
argument set. -/
theorem from_dict_wraps_construction_failure_witness :
    from_dict 1 (.vdict [("type", .vstr "permute")])
      = .error (.constructionError .permute [] .typeError) :=
  (from_dict_wraps_construction_failure 0 [("type", .vstr "permute")]
    (.vstr "permute") [] .permute rfl rfl).2 [] .typeError rfl rfl

/-- C4 counterexample: adding an unknown extra key to a valid document
changes the result of deserialization.  `{type: permute, dims: [1, 0]}`
deserializes, but adding `comment: "x"` makes `from_dict` fail: the
extra key is forwarded to the constructor, which rejects it. -/
theorem from_dict_extra_key_changes_result :
    from_dict 1 (.vdict [("type", .vstr "permute"), ("dims", .vlist [.vint 1, .vint 0])])
      = .ok (.permute (.vlist [.vint 1, .vint 0]))
    ∧ from_dict 1 (.vdict [("type", .vstr "permute"), ("dims", .vlist [.vint 1, .vint 0]),
        ("comment", .vstr "x")])
      = .error (.constructionError .permute
          [("dims", .dv (.vlist [.vint 1, .vint 0])), ("comment", .dv (.vstr "x"))]
          .typeError) :=
  ⟨rfl, rfl⟩

/-- C4 amended: extra keys are not ignored -- every remaining document
field is passed to the resolved constructor as a keyword argument, and
any key outside the constructor's accepted parameter set makes
deserialization fail with the wrapped construction error. -/
theorem from_dict_extra_key_rejected (fuel : Nat) (fields : Doc)
    (tv : DVal) (rest : Doc) (t : LayerType)
    (args : List (String × AVal)) (k : String) (av : AVal)
    (h1 : popKey "type" fields = .ok (tv, rest))
    (h2 : resolveType tv = .ok t)
    (h3 : buildArgs (from_dict fuel) rest = .ok args)
    (h4 : (k, av) ∈ args)
    (h5 : ¬ (acceptedKeys t).contains k) :
    from_dict (fuel + 1) (.vdict fields) = .error (.constructionError t args .typeError) := by
  have hany : args.any (fun kv => !((acceptedKeys t).contains kv.1)) = true :=
    List.any_eq_true.mpr ⟨(k, av), h4, by simpa using h5⟩
  have hb : buildLayer t args = .error .typeError := by
    unfold buildLayer
    rw [hany]
    simp
  simp [from_dict, h1, h2, h3, hb]

/-- C4 witness: a convolution document with an extra `note` key is
rejected. -/
theorem from_dict_extra_key_rejected_witness :
    from_dict 1 (.vdict [("type", .vstr "convolution"), ("insize", .vint 1),
        ("size", .vint 4), ("winlen", .vint 3), ("note", .vstr "v2")])
      = .error (.constructionError .convolution
          [("insize", .dv (.vint 1)), ("size", .dv (.vint 4)),
           ("winlen", .dv (.vint 3)), ("note", .dv (.vstr "v2"))] .typeError) :=
  from_dict_extra_key_rejected 0 _ (.vstr "convolution") _ .convolution
    _ "note" (.dv (.vstr "v2")) rfl rfl rfl (by simp) (by decide)

end Bonito

namespace Bonito

/-! ## Registry theorems (claim C9) -/

/-- Lookup after a dict assignment at the same key finds the new value. -/
theorem pyGet_dictSet_self (reg : List (String × α)) (k : String) (v : α) :
    pyGet (dictSet reg k v) k = some v := by
  induction reg with
  | nil => simp [dictSet, pyGet]
  | cons hd tl ih =>
    by_cases hh : hd.1 = k
    · simp [dictSet, pyGet, hh]
    · have hk : ¬ (k = hd.1) := fun he => hh he.symm
      simp [dictSet, pyGet, hh, hk, ih]

/-- Lookup at a different key is unaffected by a dict assignment. -/
theorem pyGet_dictSet_of_ne (reg : List (String × α)) (k q : String) (v : α)
    (h : q ≠ k) : pyGet (dictSet reg k v) q = pyGet reg q := by
  induction reg with
  | nil => simp [dictSet, pyGet, h]
  | cons hd tl ih =>
    by_cases hh : hd.1 = k
    · have hq : ¬ (q = hd.1) := fun he => h (he.trans hh)
      simp [dictSet, pyGet, hh, h, hq]
    · by_cases hq : q = hd.1
      · simp [dictSet, pyGet, hh, hq]
      · simp [dictSet, pyGet, hh, hq, ih]

/-- C9: `register` returns the very type it was given, the registry then
maps the lowercased type identifier to that type, and resolution is
stable under any further registrations of types with other canonical
names, in any order. -/
theorem register_maps_lowered_name (t : LayerType) (reg : List (String × LayerType))
    (ts : List LayerType) (h : ∀ u ∈ ts, lowerName u ≠ lowerName t) :
    (register t reg).1 = t
    ∧ pyGet (register t reg).2 (lowerName t) = some t
    ∧ pyGet (ts.foldl (fun r u => (register u r).2) (register t reg).2) (lowerName t)
        = some t := by
  refine ⟨rfl, pyGet_dictSet_self reg (lowerName t) t, ?_⟩
  have key : ∀ (us : List LayerType) (st : List (String × LayerType)),
      (∀ u ∈ us, lowerName u ≠ lowerName t) →
      pyGet st (lowerName t) = some t →
      pyGet (us.foldl (fun r u => (register u r).2) st) (lowerName t) = some t := by
    intro us
    induction us with
    | nil => intro st _ hst; simpa using hst
    | cons hd tl ih =>
      intro st hus hst
      simp only [List.foldl_cons]
      refine ih _ (fun u hu => hus u (List.mem_cons_of_mem hd hu)) ?_
      unfold register
      rw [pyGet_dictSet_of_ne st (lowerName hd) (lowerName t) hd
        (fun he => hus hd (List.mem_cons_self hd tl) he.symm)]
      exact hst
  exact key ts (register t reg).2 h (pyGet_dictSet_self reg (lowerName t) t)

/-- C9 witness: registering `LSTM` into an empty registry plus two further
registrations still resolves the name `lstm` to `LSTM`. -/
theorem register_maps_lowered_name_witness :
    (∀ u ∈ [LayerType.relu, LayerType.sha], lowerName u ≠ lowerName .lstm)
    ∧ pyGet ([LayerType.relu, LayerType.sha].foldl (fun r u => (register u r).2)
        (register .lstm []).2) (lowerName .lstm) = some .lstm :=
  ⟨by decide, (register_maps_lowered_name .lstm [] [.relu, .sha] (by decide)).2.2⟩

end Bonito

namespace Bonito

/-! ## Validation scoring theorems (claim C7) -/

/-- C7: for any scoring function and any batch pairing of references with
called sequences, the per-example scoring of `validate_one_step`
produces exactly one accuracy per example, and every empty called
sequence is assigned accuracy 0. -/
theorem validation_accs_per_example
    (accuracy : List Char → List Char → Rat → Rat)
    (refs seqs : List (List Char)) (h : refs.length = seqs.length) :
    (validation_accs accuracy refs seqs).length = seqs.length
    ∧ ∀ i : Nat, seqs[i]? = some ([] : List Char) →
      (validation_accs accuracy refs seqs)[i]? = some (0 : Rat) := by
  constructor
  · simp [validation_accs, h]
  · have key : ∀ (rs ss : List (List Char)) (i : Nat), rs.length = ss.length →
        ss[i]? = some ([] : List Char) →
        (validation_accs accuracy rs ss)[i]? = some (0 : Rat) := by
      intro rs
      induction rs with
      | nil =>
        intro ss i hl hi
        cases ss with
        | nil => simp at hi
        | cons s st => simp at hl
      | cons r rt ih =>
        intro ss i hl hi
        cases ss with
        | nil => simp at hl
        | cons s st =>
          cases i with
          | zero =>
            simp only [List.getElem?_cons_zero, Option.some.injEq] at hi
            subst hi
            simp [validation_accs]
          | succ j =>
            simp only [List.getElem?_cons_succ] at hi
            simpa [validation_accs] using ih st j (by simpa using hl) hi
    exact fun i => key refs seqs i h

/-- C7 witness: a two-example batch whose second call is empty. -/
theorem validation_accs_per_example_witness :
    ([['A'], ['C', 'G']] : List (List Char)).length = ([['A'], []] : List (List Char)).length
    ∧ (validation_accs (fun (_ : List Char) (_ : List Char) (_ : Rat) => (9 : Rat) / 10) [['A'], ['C', 'G']] [['A'], []]).length = 2
    ∧ (validation_accs (fun (_ : List Char) (_ : List Char) (_ : Rat) => (9 : Rat) / 10)
        [['A'], ['C', 'G']] [['A'], []])[1]? = some (0 : Rat) :=
  ⟨rfl,
    (validation_accs_per_example (fun (_ : List Char) (_ : List Char) (_ : Rat) => (9 : Rat) / 10) [['A'], ['C', 'G']] [['A'], []] rfl).1,
    (validation_accs_per_example (fun (_ : List Char) (_ : List Char) (_ : Rat) => (9 : Rat) / 10) [['A'], ['C', 'G']] [['A'], []] rfl).2
      1 rfl⟩

/-! ## Training-loop interruption theorems (claim C8) -/

/-- An interruption that is not in the post-`try` logging phase never
reports the `log` phase for any epoch. -/
theorem interruptPhase_ne_log (iAt : Option (Nat × Phase))
    (h : iAt.map Prod.snd ≠ some Phase.log) (epoch : Nat) :
    interruptPhase iAt epoch ≠ some Phase.log := by
  intro hc
  unfold interruptPhase at hc
  match iAt, h, hc with
  | none, _, hc => exact Option.noConfusion hc
  | some (e, ph), h, hc =>
    by_cases he : e = epoch
    · simp only [he, if_true] at hc
      injection hc with hph
      subst hph
      exact h rfl
    · simp only [he, if_false] at hc
      exact Option.noConfusion hc

/-- C8: if the user interruption arrives during an epoch's training,
checkpoint save, or validation (all inside the `try` of `Trainer.fit`),
the run terminates normally -- the `KeyboardInterrupt` does not escape
`fit` -- and the checkpoints on disk afterwards extend the previously
written ones: every checkpoint saved for an earlier completed epoch is
still present, unchanged, in its original position. -/
theorem fit_interrupt_clean (iAt : Option (Nat × Phase)) (first count : Nat)
    (st : FitState) (h : iAt.map Prod.snd ≠ some Phase.log) :
    ∃ st', fitRun iAt first count st = .done st'
      ∧ ∃ tail, st'.checkpoints = st.checkpoints ++ tail := by
  induction count generalizing first st with
  | zero => exact ⟨st, rfl, [], by simp⟩
  | succ c ih =>
    cases hp : interruptPhase iAt first with
    | none =>
      obtain ⟨st', h1, tail, h2⟩ :=
        ih (first + 1) ⟨st.checkpoints ++ [first], st.trainingLog ++ [first]⟩
      refine ⟨st', ?_, [first] ++ tail, ?_⟩
      · simpa [fitRun, hp] using h1
      · simpa [List.append_assoc] using h2
    | some ph =>
      cases ph with
      | train => exact ⟨st, by simp [fitRun, hp], [], by simp⟩
      | save => exact ⟨st, by simp [fitRun, hp], [], by simp⟩
      | validate =>
        exact ⟨⟨st.checkpoints ++ [first], st.trainingLog⟩, by simp [fitRun, hp], [first], rfl⟩
      | log => exact absurd hp (interruptPhase_ne_log iAt h first)

/-- C8 witness: three requested epochs with an interruption during the
checkpoint save of epoch 2. -/
theorem fit_interrupt_clean_witness :
    (some ((2 : Nat), Phase.save)).map Prod.snd ≠ some Phase.log
    ∧ ∃ st', fitRun (some (2, Phase.save)) 1 3 ⟨[], []⟩ = .done st'
        ∧ ∃ tail, st'.checkpoints = [] ++ tail :=
  ⟨by decide, fit_interrupt_clean (some (2, Phase.save)) 1 3 ⟨[], []⟩ (by decide)⟩

end Bonito

namespace Bonito

/-! ## Checkpoint alignment theorems (claim C6) -/

/-- String append is left-cancellative. -/
theorem strAppend_left_cancel (a b c : String) (h : a ++ b = a ++ c) : b = c := by
  obtain ⟨la⟩ := a
  obtain ⟨lb⟩ := b
  obtain ⟨lc⟩ := c
  have hd : la ++ lb = la ++ lc := congrArg String.data h
  exact congrArg String.mk (List.append_cancel_left hd)

/-- Looking up a `module.`-prefixed name in the prefixed saved mapping
finds the tensor saved for that parameter (first match, since prefixed
names stay pairwise distinct). -/
theorem pyGet_prefixed (params : List (String × List Nat × Nat))
    (hnodup : (params.map Prod.fst).Nodup) :
    ∀ p ∈ params,
      pyGet (params.map fun q => ("module." ++ q.1, Tensor.mk q.2.1 q.2.2))
        ("module." ++ p.1) = some (Tensor.mk p.2.1 p.2.2) := by
  induction params with
  | nil => intro p hp; simp at hp
  | cons hd tl ih =>
    intro p hp
    simp only [List.map_cons, List.nodup_cons] at hnodup
    rcases List.mem_cons.mp hp with rfl | hptl
    · simp [pyGet]
    · have hne : ¬ ("module." ++ p.1 = "module." ++ hd.1) := by
        intro he
        have : p.1 = hd.1 := strAppend_left_cancel _ _ _ he
        exact hnodup.1 (this ▸ List.mem_map_of_mem Prod.fst hptl)
      simp only [List.map_cons, pyGet, hne, if_false]
      exact ih hnodup.2 p hptl

/-- Rekeying the saved mapping along the computed correspondence succeeds
and pairs each target name with the tensor saved under its prefixed
name. -/
theorem mapM_rekey (full : List (String × Tensor))
    (params : List (String × List Nat × Nat))
    (hfind : ∀ p ∈ params,
      pyGet full ("module." ++ p.1) = some (Tensor.mk p.2.1 p.2.2)) :
    (params.map fun p => ("module." ++ p.1, p.1)).mapM (fun kk =>
        match pyGet full kk.1 with
        | some v => Except.ok (kk.2, v)
        | none => Except.error (PyErr.keyError (.vstr kk.1)))
      = .ok (params.map fun p => (p.1, Tensor.mk p.2.1 p.2.2)) := by
  induction params with
  | nil => rfl
  | cons hd tl ih =>
    have hhd := hfind hd (List.mem_cons_self hd tl)
    have htl := ih (fun p hp => hfind p (List.mem_cons_of_mem hd hp))
    simp only [List.map_cons, List.mapM_cons, hhd, htl]
    rfl

/-- C6: a saved parameter mapping whose keys are the target's expected
parameter names under a uniform `module.` wrapper prefix (with matching
shapes, in the saved order) aligns successfully: `match_names` pairs
each saved key with its target name, the `module.` strip leaves the
target names untouched, and loading assigns each saved tensor to the
target parameter of the corresponding name. -/
theorem except_ok_bind (a : α) (f : α → Except PyErr β) :
    (Except.ok a >>= f) = f a := rfl

theorem align_state_strips_wrapper (params : List (String × List Nat × Nat))
    (hnodup : (params.map Prod.fst).Nodup)
    (hnm : ∀ p ∈ params, replaceModule p.1 = p.1) :
    align_state
      (params.map fun p => ("module." ++ p.1, Tensor.mk p.2.1 p.2.2))
      (params.map fun p => (p.1, p.2.1))
    = .ok (params.map fun p => (p.1, Tensor.mk p.2.1 p.2.2)) := by
  have hmn : match_names
      (params.map fun p => ("module." ++ p.1, Tensor.mk p.2.1 p.2.2))
      (params.map fun p => (p.1, p.2.1))
      = .ok (params.map fun p => ("module." ++ p.1, p.1)) := by
    unfold match_names
    rw [if_pos]
    · congr 1
      rw [List.map_map, List.map_map, List.zip_map']
      rfl
    · constructor
      · simp
      · rw [List.zip_map', List.all_eq_true]
        intro x hx
        rcases List.mem_map.mp hx with ⟨p, hp, rfl⟩
        simp
  have hrk := mapM_rekey
    (params.map fun q => ("module." ++ q.1, Tensor.mk q.2.1 q.2.2)) params
    (pyGet_prefixed params hnodup)
  have hmap : (params.map fun p => ((p.1 : String), Tensor.mk p.2.1 p.2.2)).map
      (fun kv => (replaceModule kv.1, kv.2))
      = params.map fun p => (p.1, Tensor.mk p.2.1 p.2.2) := by
    rw [List.map_map]
    apply List.map_congr_left
    intro p hp
    simp [hnm p hp]
  have hload : load_state_dict_strict (params.map fun p => (p.1, p.2.1))
      (params.map fun p => (p.1, Tensor.mk p.2.1 p.2.2))
      = .ok (params.map fun p => (p.1, Tensor.mk p.2.1 p.2.2)) := by
    unfold load_state_dict_strict
    rw [if_pos]
    constructor
    · rw [List.map_map, List.map_map]
      rfl
    · rw [List.zip_map', List.all_eq_true]
      intro x hx
      rcases List.mem_map.mp hx with ⟨p, hp, rfl⟩
      simp
  unfold align_state
  rw [hmn, except_ok_bind, hrk, except_ok_bind, hmap, hload]

/-- C6 witness: two saved tensors under the `module.` wrapper prefix land
on the identically named target parameters. -/
theorem align_state_strips_wrapper_witness :
    (([("layer.w", ([3, 4], 0)), ("layer.b", ([4], 1))] :
        List (String × List Nat × Nat)).map Prod.fst).Nodup
    ∧ (∀ p ∈ ([("layer.w", ([3, 4], 0)), ("layer.b", ([4], 1))] :
        List (String × List Nat × Nat)), replaceModule p.1 = p.1)
    ∧ align_state
        [("module.layer.w", Tensor.mk [3, 4] 0), ("module.layer.b", Tensor.mk [4] 1)]
        [("layer.w", [3, 4]), ("layer.b", [4])]
      = .ok [("layer.w", Tensor.mk [3, 4] 0), ("layer.b", Tensor.mk [4] 1)] :=
  ⟨by decide, by decide,
    align_state_strips_wrapper
      [("layer.w", ([3, 4], 0)), ("layer.b", ([4], 1))] (by decide) (by decide)⟩

end Bonito

namespace Bonito

/-! ## Checkpoint epoch selection theorems (claim C5) -/

theorem chDigitVal_digitCh (d : Nat) (h : d < 10) : chDigitVal (digitCh d) = d := by
  interval_cases d <;> decide

theorem digitCh_isDigit (d : Nat) (h : d < 10) : (digitCh d).isDigit := by
  interval_cases d <;> decide

theorem digitsValNat_append_one (l : List Char) (c : Char) :
    digitsValNat (l ++ [c]) = 10 * digitsValNat l + chDigitVal c := by
  simp [digitsValNat, List.foldl_append]

theorem natDigitsAux_spec (fuel : Nat) : ∀ n : Nat, n < fuel →
    natDigitsAux fuel n ≠ [] ∧ (∀ c ∈ natDigitsAux fuel n, c.isDigit) ∧
    digitsValNat (natDigitsAux fuel n) = n := by
  induction fuel with
  | zero => intro n h; omega
  | succ f ih =>
    intro n h
    by_cases hn : n < 10
    · refine ⟨by simp [natDigitsAux, hn], ?_, ?_⟩
      · intro c hc
        simp only [natDigitsAux, hn, if_true, List.mem_singleton] at hc
        subst hc
        exact digitCh_isDigit n hn
      · simp [natDigitsAux, hn, digitsValNat, chDigitVal_digitCh n hn]
    · have hdiv : n / 10 < f := by
        have h1 : n / 10 < n := Nat.div_lt_self (by omega) (by omega)
        omega
      obtain ⟨h1, h2, h3⟩ := ih (n / 10) hdiv
      have hmod : n % 10 < 10 := Nat.mod_lt n (by omega)
      refine ⟨by simp [natDigitsAux, hn], ?_, ?_⟩
      · intro c hc
        simp only [natDigitsAux, hn, if_false] at hc
        rcases List.mem_append.mp hc with hcl | hcr
        · exact h2 c hcl
        · rw [List.mem_singleton] at hcr
          subst hcr
          exact digitCh_isDigit _ hmod
      · simp only [natDigitsAux, hn, if_false]
        rw [digitsValNat_append_one, h3, chDigitVal_digitCh _ hmod]
        omega

theorem natDigits_spec (n : Nat) :
    natDigits n ≠ [] ∧ (∀ c ∈ natDigits n, c.isDigit)
    ∧ digitsValNat (natDigits n) = n :=
  natDigitsAux_spec (n + 1) n (Nat.lt_succ_self n)

theorem isDigit_ne (c : Char) (h : c.isDigit) :
    c ≠ '_' ∧ c ≠ '-' ∧ c ≠ '+' := by
  refine ⟨?_, ?_, ?_⟩ <;> (intro he; subst he; exact absurd h (by decide))

theorem isDigit_not_ws (c : Char) (h : c.isDigit) : c.isWhitespace = false := by
  by_cases hw : c.isWhitespace
  · exfalso
    have hw2 := hw
    simp only [Char.isWhitespace, Bool.or_eq_true, decide_eq_true_eq] at hw2
    rcases hw2 with ((rfl | rfl) | rfl) | rfl <;> exact absurd h (by decide)
  · simpa using hw

theorem takeWhile_append_of_all (p : Char → Bool) (l1 l2 : List Char)
    (h : ∀ a ∈ l1, p a) : (l1 ++ l2).takeWhile p = l1 ++ l2.takeWhile p := by
  induction l1 with
  | nil => simp
  | cons a l ih =>
    have ha : p a := h a (List.mem_cons_self a l)
    simp [List.takeWhile_cons, ha, ih (fun x hx => h x (List.mem_cons_of_mem a hx))]

theorem dropWhile_append_of_all (p : Char → Bool) (l1 l2 : List Char)
    (h : ∀ a ∈ l1, p a) : (l1 ++ l2).dropWhile p = l2.dropWhile p := by
  induction l1 with
  | nil => simp
  | cons a l ih =>
    have ha : p a := h a (List.mem_cons_self a l)
    simp [List.dropWhile_cons, ha, ih (fun x hx => h x (List.mem_cons_of_mem a hx))]

theorem dropWhile_of_all_false (p : Char → Bool) (l : List Char)
    (h : ∀ a ∈ l, p a = false) : l.dropWhile p = l := by
  cases l with
  | nil => rfl
  | cons a t => simp [List.dropWhile_cons, h a (List.mem_cons_self a t)]

theorem trimSpaces_digits (ds : List Char) (h : ∀ c ∈ ds, c.isDigit) :
    trimSpaces ds = ds := by
  unfold trimSpaces
  rw [dropWhile_of_all_false _ _ (fun c hc => isDigit_not_ws c (h c hc)),
    dropWhile_of_all_false _ _
      (fun c hc => isDigit_not_ws c (h c (List.mem_reverse.mp hc))),
    List.reverse_reverse]

theorem pyInt_digits (ds : List Char) (h1 : ds ≠ []) (h2 : ∀ c ∈ ds, c.isDigit) :
    pyInt ds = .ok ((digitsValNat ds : Nat) : Int) := by
  cases ds with
  | nil => exact absurd rfl h1
  | cons c rest =>
    have hc := h2 c (List.mem_cons_self c rest)
    obtain ⟨hu, hminus, hplus⟩ := isDigit_ne c hc
    unfold pyInt
    rw [trimSpaces_digits (c :: rest) h2]
    simp only [if_neg hminus, if_neg hplus]
    unfold pyDigits
    rw [if_pos ⟨by simp, by rw [List.all_eq_true]; exact fun x hx => h2 x hx⟩]
    rfl

theorem findUMatch_no_underscore (cs : List Char) (h : ∀ c ∈ cs, c ≠ '_') :
    findUMatch cs = none := by
  induction cs with
  | nil => rfl
  | cons c rest ih =>
    simp [findUMatch, ih (fun x hx => h x (List.mem_cons_of_mem c hx)),
      h c (List.mem_cons_self c rest)]

theorem findUMatch_prefixed (l1 tail : List Char)
    (h1 : ∀ c ∈ l1, c ≠ '_') (h2 : findUMatch tail = none) :
    findUMatch (l1 ++ '_' :: tail) = matchAfterUnderscore tail := by
  induction l1 with
  | nil => simp [findUMatch, h2]
  | cons a l ih =>
    have ha : a ≠ '_' := h1 a (List.mem_cons_self a l)
    have ihh := ih (fun x hx => h1 x (List.mem_cons_of_mem a hx))
    simp only [List.cons_append, findUMatch, List.append_eq, ihh]
    cases hm : matchAfterUnderscore tail with
    | some r => rfl
    | none => simp [ha]

theorem matchAfterUnderscore_weighttail (ds : List Char) (h1 : ds ≠ [])
    (h2 : ∀ c ∈ ds, c.isDigit) :
    matchAfterUnderscore (ds ++ ".tar".data) = some (ds, []) := by
  unfold matchAfterUnderscore
  rw [takeWhile_append_of_all _ _ _ h2, dropWhile_append_of_all _ _ _ h2]
  rw [show (".tar".data.takeWhile Char.isDigit) = [] from rfl,
    show (".tar".data.dropWhile Char.isDigit) = ".tar".data from rfl,
    List.append_nil]
  cases hrev : ds.reverse with
  | nil => exact absurd (List.reverse_eq_nil_iff.mp hrev) h1
  | cons d rds =>
    have ha : anyTar ([] ++ ".tar".data) = some [] := rfl
    simp only [descendDigits, ha]
    rw [← hrev, List.reverse_reverse]

theorem reSubAux_succ (fuel : Nat) (cs : List Char) :
    reSubAux (fuel + 1) cs = match findUMatch cs with
      | some (cap, rest) => cap ++ reSubAux fuel rest
      | none => cs := rfl

theorem reSubAux_nil (fuel : Nat) : reSubAux fuel [] = [] := by
  cases fuel <;> rfl

theorem reSub_weightfile (ds : List Char) (h1 : ds ≠ []) (h2 : ∀ c ∈ ds, c.isDigit) :
    reSub ("weights_".data ++ ds ++ ".tar".data) = ds := by
  have hsplit : "weights_".data ++ ds ++ ".tar".data
      = "weights".data ++ '_' :: (ds ++ ".tar".data) := by
    rw [show "weights_".data = "weights".data ++ ['_'] from rfl]
    simp [List.append_assoc]
  have hnou : ∀ c ∈ ds ++ ".tar".data, c ≠ '_' := by
    intro c hc
    rcases List.mem_append.mp hc with hl | hr
    · exact (isDigit_ne c (h2 c hl)).1
    · rw [show ".tar".data = ['.', 't', 'a', 'r'] from rfl] at hr
      simp only [List.mem_cons, List.not_mem_nil, or_false] at hr
      rcases hr with rfl | rfl | rfl | rfl <;> decide
  have hfm : findUMatch ("weights_".data ++ ds ++ ".tar".data) = some (ds, []) := by
    rw [hsplit, findUMatch_prefixed _ _ (by decide) (findUMatch_no_underscore _ hnou)]
    exact matchAfterUnderscore_weighttail ds h1 h2
  have hlen : ("weights_".data ++ ds ++ ".tar".data).length = ds.length + 12 := by
    simp only [List.length_append,
      show ("weights_".data).length = 8 from rfl,
      show (".tar".data).length = 4 from rfl]
    omega
  unfold reSub
  rw [hlen, show ds.length + 12 = (ds.length + 11) + 1 by omega, reSubAux_succ, hfm]
  show ds ++ reSubAux (ds.length + 11) [] = ds
  rw [reSubAux_nil, List.append_nil]

theorem mapM_weightfiles (epochs : List Nat) :
    (epochs.map mkWeightFile).mapM (fun f => pyInt (reSub f))
      = .ok (epochs.map Int.ofNat) := by
  induction epochs with
  | nil => rfl
  | cons e rest ih =>
    obtain ⟨h1, h2, h3⟩ := natDigits_spec e
    have hr : reSub (mkWeightFile e) = natDigits e := by
      unfold mkWeightFile
      exact reSub_weightfile _ h1 h2
    have hp : pyInt (natDigits e) = .ok ((digitsValNat (natDigits e) : Nat) : Int) :=
      pyInt_digits _ h1 h2
    simp only [List.map_cons, List.mapM_cons, hr, hp, h3, ih]
    rfl

theorem foldl_max_mem_le (a : Int) (xs : List Int) :
    (xs.foldl max a = a ∨ xs.foldl max a ∈ xs)
    ∧ a ≤ xs.foldl max a ∧ ∀ x ∈ xs, x ≤ xs.foldl max a := by
  induction xs generalizing a with
  | nil => exact ⟨Or.inl rfl, le_refl a, by simp⟩
  | cons x t ih =>
    obtain ⟨hmem, hle, hall⟩ := ih (max a x)
    simp only [List.foldl_cons]
    refine ⟨?_, ?_, ?_⟩
    · rcases hmem with he | hm
      · rw [he]
        rcases max_choice a x with hax | hax
        · exact Or.inl hax
        · exact Or.inr (by rw [hax]; exact List.mem_cons_self x t)
      · exact Or.inr (List.mem_cons_of_mem x hm)
    · exact le_trans (le_max_left a x) hle
    · intro y hy
      rcases List.mem_cons.mp hy with rfl | hyt
      · exact le_trans (le_max_right a y) hle
      · exact hall y hyt

/-- C5: the epoch selection of `load_state` returns 0 when no filename in
the directory matches the checkpoint glob, and when the matching
filenames are exactly the checkpoint files for a non-empty collection of
epochs it returns the maximum epoch present. -/
theorem latest_epoch_spec (files : List (List Char)) :
    (files.filter globWeights = [] → latest_epoch files = .ok 0)
    ∧ ∀ epochs : List Nat, epochs ≠ [] →
      files.filter globWeights = epochs.map mkWeightFile →
      ∃ m : Nat, latest_epoch files = .ok (m : Int) ∧ m ∈ epochs
        ∧ ∀ e ∈ epochs, e ≤ m := by
  constructor
  · intro h
    unfold latest_epoch
    rw [h]
  · intro epochs hne hfil
    cases epochs with
    | nil => exact absurd rfl hne
    | cons e0 rest =>
      have hM := mapM_weightfiles (e0 :: rest)
      obtain ⟨hmem, hle, hall⟩ := foldl_max_mem_le (Int.ofNat e0) (rest.map Int.ofNat)
      have hrun : latest_epoch files
          = .ok ((rest.map Int.ofNat).foldl max (Int.ofNat e0)) := by
        unfold latest_epoch
        rw [hfil]
        simp only [List.map_cons] at hM ⊢
        rw [hM, except_ok_bind]
        rfl
      have hvmem : ∃ m : Nat,
          (rest.map Int.ofNat).foldl max (Int.ofNat e0) = Int.ofNat m
          ∧ m ∈ e0 :: rest := by
        rcases hmem with he | hm
        · exact ⟨e0, he, List.mem_cons_self e0 rest⟩
        · rcases List.mem_map.mp hm with ⟨m, hmr, hmv⟩
          exact ⟨m, hmv.symm, List.mem_cons_of_mem e0 hmr⟩
      obtain ⟨m, hveq, hmmem⟩ := hvmem
      refine ⟨m, by rw [hrun, hveq]; rfl, hmmem, ?_⟩
      intro e he
      have hei : Int.ofNat e ≤ (rest.map Int.ofNat).foldl max (Int.ofNat e0) := by
        rcases List.mem_cons.mp he with rfl | het
        · exact hle
        · exact hall _ (List.mem_map_of_mem Int.ofNat het)
      rw [hveq] at hei
      exact Int.ofNat_le.mp hei

/-- C5 witness: a directory with checkpoint files for epochs 3, 1, 7, 2
(plus a non-matching file) selects epoch 7. -/
theorem latest_epoch_spec_witness :
    ["weights_3.tar".data, "weights_1.tar".data, "weights_7.tar".data,
      "weights_2.tar".data, "training.csv".data].filter globWeights
      = [3, 1, 7, 2].map mkWeightFile
    ∧ ∃ m : Nat,
        latest_epoch ["weights_3.tar".data, "weights_1.tar".data,
          "weights_7.tar".data, "weights_2.tar".data, "training.csv".data]
          = .ok (m : Int)
        ∧ m ∈ [3, 1, 7, 2] ∧ ∀ e ∈ [3, 1, 7, 2], e ≤ m :=
  ⟨by decide,
    (latest_epoch_spec ["weights_3.tar".data, "weights_1.tar".data,
      "weights_7.tar".data, "weights_2.tar".data, "training.csv".data]).2
      [3, 1, 7, 2] (by decide) (by decide)⟩

end Bonito

namespace Bonito

/-! ## Frame theorems for the heap-level deserializer (claim C10) -/

theorem heapFind_append_ne (l : List (Nat × List (String × HVal)))
    (n : Nat) (o : List (String × HVal)) (a : Nat) (h : a ≠ n) :
    heapFind (l ++ [(n, o)]) a = heapFind l a := by
  induction l with
  | nil => simp [heapFind, h]
  | cons p rest ih =>
    by_cases hp : a = p.1
    · simp [heapFind, hp]
    · simp [heapFind, hp, ih]

theorem heapFind_map_ne (l : List (Nat × List (String × HVal)))
    (b : Nat) (obj : List (String × HVal)) (a : Nat) (h : a ≠ b) :
    heapFind (l.map (fun p => if p.1 = b then (b, obj) else p)) a = heapFind l a := by
  induction l with
  | nil => rfl
  | cons p rest ih =>
    by_cases hp : p.1 = b
    · have hap : ¬ (a = (b, obj).1) := h
      have hap2 : ¬ (a = p.1) := fun he => h (he.trans hp)
      simp [heapFind, hp, hap, hap2, ih]
    · by_cases hap : a = p.1
      · simp [heapFind, hp, hap]
      · simp [heapFind, hp, hap, ih]

theorem heapGet_set_ne (st : HeapSt) (b : Nat) (obj : List (String × HVal))
    (a : Nat) (h : a ≠ b) : heapGet (heapSet st b obj) a = heapGet st a :=
  heapFind_map_ne st.heap b obj a h

theorem heapSet_wf (st : HeapSt) (b : Nat) (obj : List (String × HVal))
    (h : WFHeap st) : WFHeap (heapSet st b obj) := by
  intro p hp
  rcases List.mem_map.mp hp with ⟨q, hq, hqe⟩
  by_cases hqb : q.1 = b
  · have : p = (b, obj) := by rw [← hqe]; simp [hqb]
    rw [this]
    exact hqb ▸ h q hq
  · have : p = q := by rw [← hqe]; simp [hqb]
    rw [this]
    exact h q hq

theorem heapExtends_refl (st : HeapSt) (h : WFHeap st) : HeapExtends st st :=
  ⟨h, le_refl _, fun _ _ => rfl⟩

theorem heapExtends_trans (s1 s2 s3 : HeapSt)
    (h12 : HeapExtends s1 s2) (h23 : HeapExtends s2 s3) : HeapExtends s1 s3 := by
  obtain ⟨hw2, hn2, hg2⟩ := h12
  obtain ⟨hw3, hn3, hg3⟩ := h23
  exact ⟨hw3, le_trans hn2 hn3,
    fun a ha => (hg3 a (lt_of_lt_of_le ha hn2)).trans (hg2 a ha)⟩

theorem heapAlloc_extends (st : HeapSt) (obj : List (String × HVal))
    (h : WFHeap st) : HeapExtends st (heapAlloc st obj).2 := by
  refine ⟨?_, Nat.le_succ _, ?_⟩
  · intro p hp
    rcases List.mem_append.mp hp with hl | hr
    · exact lt_trans (h p hl) (Nat.lt_succ_self _)
    · rw [List.mem_singleton] at hr
      rw [hr]
      exact Nat.lt_succ_self _
  · intro a ha
    exact heapFind_append_ne st.heap st.next obj a (by omega)

/-- Mutating an address at or above the source heap's allocation counter
preserves extension from that source heap. -/
theorem heapSet_extends_compose (st st3 : HeapSt) (b : Nat)
    (obj : List (String × HVal)) (hx : HeapExtends st st3) (hb : st.next ≤ b) :
    HeapExtends st (heapSet st3 b obj) := by
  obtain ⟨hwf, hn, hget⟩ := hx
  refine ⟨heapSet_wf st3 b obj hwf, hn, ?_⟩
  intro a ha
  rw [heapGet_set_ne st3 b obj a (by omega)]
  exact hget a ha

theorem constructH_snd (fuel : Nat) (st : HeapSt) (b : Nat) (t : LayerType) :
    (constructH fuel st b t).2 = st := by
  unfold constructH
  cases heapGet st b with
  | none => rfl
  | some fields =>
    simp only []
    cases buildLayer t (fields.map (fun kv => (kv.1, toAVal fuel st kv.2))) <;> rfl

theorem stFold_extends (f : HVal → HeapSt → (Except PyErr Node) × HeapSt)
    (hf : ∀ (st : HeapSt) (x : HVal), WFHeap st → HeapExtends st (f x st).2) :
    ∀ (xs : List HVal) (st : HeapSt), WFHeap st →
      HeapExtends st (stFold f xs st).2 := by
  intro xs
  induction xs with
  | nil => intro st h; exact heapExtends_refl st h
  | cons x t ih =>
    intro st h
    have h1 := hf st x h
    cases hq : f x st with
    | mk r1 st1 =>
      rw [hq] at h1
      cases r1 with
      | error e =>
        show HeapExtends st (stFold f (x :: t) st).2
        simp only [stFold, hq]
        exact h1
      | ok n =>
        have h2 := ih st1 h1.1
        cases hq2 : stFold f t st1 with
        | mk r2 st2 =>
          rw [hq2] at h2
          have h12 := heapExtends_trans st st1 st2 h1 h2
          cases r2 <;> simp only [stFold, hq, hq2] <;> exact h12

theorem recConstruct_extends (fuel : Nat) (st st2 : HeapSt) (b : Nat)
    (fields1 : List (String × HVal)) (t : LayerType) (other : HVal)
    (ihh : ∀ (s : HeapSt) (v : HVal), WFHeap s → HeapExtends s (fromDictH fuel s v).2)
    (hE2 : HeapExtends st st2) (hb : st.next ≤ b) :
    HeapExtends st
      (match fromDictH fuel st2 other with
       | (.error e, st3) => ((.error e : Except PyErr Node), st3)
       | (.ok n, st3) =>
         constructH fuel (heapSet st3 b (dictSet fields1 "sublayers" (.hnode n))) b t).2 := by
  cases hrec : fromDictH fuel st2 other with
  | mk r st3 =>
    have h3 := ihh st2 other hE2.1
    rw [hrec] at h3
    have h03 := heapExtends_trans st st2 st3 hE2 h3
    cases r with
    | error e => simpa only [hrec] using h03
    | ok n =>
      simp only [hrec, constructH_snd]
      exact heapSet_extends_compose st st3 b _ h03 hb

theorem listConstruct_extends (fuel : Nat) (st st2 : HeapSt) (b : Nat)
    (fields1 : List (String × HVal)) (t : LayerType) (xs : List HVal)
    (ihh : ∀ (s : HeapSt) (v : HVal), WFHeap s → HeapExtends s (fromDictH fuel s v).2)
    (hE2 : HeapExtends st st2) (hb : st.next ≤ b) :
    HeapExtends st
      (match stFold (fun x s => fromDictH fuel s x) xs st2 with
       | (.error e, st3) => ((.error e : Except PyErr Node), st3)
       | (.ok ns, st3) =>
         constructH fuel
           (heapSet st3 b (dictSet fields1 "sublayers" (.hlist (ns.map .hnode)))) b t).2 := by
  cases hrec : stFold (fun x s => fromDictH fuel s x) xs st2 with
  | mk r st3 =>
    have h3 := stFold_extends (fun x s => fromDictH fuel s x)
      (fun s x hs => ihh s x hs) xs st2 hE2.1
    rw [hrec] at h3
    have h03 := heapExtends_trans st st2 st3 hE2 h3
    cases r with
    | error e => simpa only [hrec] using h03
    | ok ns =>
      simp only [hrec, constructH_snd]
      exact heapSet_extends_compose st st3 b _ h03 hb

theorem fromDictH_extends : ∀ (fuel : Nat) (st : HeapSt) (v : HVal), WFHeap st →
    HeapExtends st (fromDictH fuel st v).2 := by
  intro fuel
  induction fuel with
  | zero => intro st v h; exact heapExtends_refl st h
  | succ fuel ih =>
    intro st v h
    cases v with
    | hint i => exact heapExtends_refl st h
    | hfloat q => exact heapExtends_refl st h
    | hbool b => exact heapExtends_refl st h
    | hstr s => exact heapExtends_refl st h
    | hnone => exact heapExtends_refl st h
    | hlist xs => exact heapExtends_refl st h
    | hnode n => exact heapExtends_refl st h
    | href a =>
      cases hga : heapGet st a with
      | none =>
        simp only [fromDictH, hga]
        exact heapExtends_refl st h
      | some fields =>
        have hE1 : HeapExtends st (heapAlloc st fields).2 :=
          heapAlloc_extends st fields h
        cases htv : pyGet fields "type" with
        | none =>
          simp only [fromDictH, hga, htv, heapAlloc]
          exact hE1
        | some tv =>
          have hE2 : HeapExtends st
              (heapSet ⟨st.heap ++ [(st.next, fields)], st.next + 1⟩ st.next
                (fields.filter (fun kv => kv.1 != "type"))) :=
            heapSet_extends_compose st _ st.next _ hE1 (le_refl _)
          cases hrt : resolveType (readBack fuel
              (heapSet ⟨st.heap ++ [(st.next, fields)], st.next + 1⟩ st.next
                (fields.filter (fun kv => kv.1 != "type"))) tv) with
          | error e =>
            simp only [fromDictH, hga, htv, heapAlloc, hrt]
            exact hE2
          | ok t =>
            cases hsl : pyGet (fields.filter (fun kv => kv.1 != "type")) "sublayers" with
            | none =>
              simp only [fromDictH, hga, htv, heapAlloc, hrt, hsl, constructH_snd]
              exact hE2
            | some w =>
              cases w with
              | hlist xs =>
                simp only [fromDictH, hga, htv, heapAlloc, hrt, hsl]
                exact listConstruct_extends fuel st _ st.next _ t xs ih hE2 (le_refl _)
              | hint i =>
                simp only [fromDictH, hga, htv, heapAlloc, hrt, hsl]
                exact recConstruct_extends fuel st _ st.next _ t _ ih hE2 (le_refl _)
              | hfloat q =>
                simp only [fromDictH, hga, htv, heapAlloc, hrt, hsl]
                exact recConstruct_extends fuel st _ st.next _ t _ ih hE2 (le_refl _)
              | hbool b =>
                simp only [fromDictH, hga, htv, heapAlloc, hrt, hsl]
                exact recConstruct_extends fuel st _ st.next _ t _ ih hE2 (le_refl _)
              | hstr s =>
                simp only [fromDictH, hga, htv, heapAlloc, hrt, hsl]
                exact recConstruct_extends fuel st _ st.next _ t _ ih hE2 (le_refl _)
              | hnone =>
                simp only [fromDictH, hga, htv, heapAlloc, hrt, hsl]
                exact recConstruct_extends fuel st _ st.next _ t _ ih hE2 (le_refl _)
              | href a2 =>
                simp only [fromDictH, hga, htv, heapAlloc, hrt, hsl]
                exact recConstruct_extends fuel st _ st.next _ t _ ih hE2 (le_refl _)
              | hnode n =>
                simp only [fromDictH, hga, htv, heapAlloc, hrt, hsl]
                exact recConstruct_extends fuel st _ st.next _ t _ ih hE2 (le_refl _)

/-- C10: `from_dict` never mutates the document it is given: every dict
object that existed before the call -- in particular the argument
document and all of its nested sublayer documents -- is untouched in the
heap after the call, whether deserialization succeeds or fails (the only
mutations of the algorithm target its fresh copy). -/
theorem fromDictH_preserves_input (fuel : Nat) (st : HeapSt) (v : HVal)
    (h : WFHeap st) :
    ∀ a, a < st.next → heapGet (fromDictH fuel st v).2 a = heapGet st a :=
  (fromDictH_extends fuel st v h).2.2

/-- C10 witness: a concrete one-layer document is unchanged by
deserialization. -/
theorem fromDictH_preserves_input_witness :
    WFHeap ⟨[(0, [("type", HVal.hstr "relu")])], 1⟩
    ∧ heapGet (fromDictH 5 ⟨[(0, [("type", HVal.hstr "relu")])], 1⟩ (.href 0)).2 0
        = heapGet ⟨[(0, [("type", HVal.hstr "relu")])], 1⟩ 0 :=
  ⟨by decide, fromDictH_preserves_input 5 _ (.href 0) (by decide) 0 (by decide)⟩

end Bonito
